import Mathlib

/-!
Verification of the option-reconciliation, ownership-gate, validation and
secure-delete logic of the alx-polly polling application, shallowly embedded
from the TypeScript sources.
-/

namespace AlxPolly

/-- Model of the JavaScript `String.prototype.trim`: remove leading and
trailing whitespace.  Defined over the character list so it evaluates in the
kernel. -/
def jsTrim (s : String) : String :=
  String.mk (((s.data.dropWhile Char.isWhitespace).reverse.dropWhile Char.isWhitespace).reverse)

/-- A persisted poll option row, as fetched from the `poll_options` table:
an opaque string id and the option text. -/
structure PollOption where
  id : String
  option_text : String
  deriving DecidableEq, Repr

/-- Result of the reconciliation diff computed by `handleSubmit` in
`src/app/polls/[poll_id]/edit/page.tsx`: ids of existing options to keep,
texts of new options to create, and existing option rows to delete. -/
structure ReconcileResult where
  toKeep : List String
  toCreate : List String
  toDelete : List PollOption
  deriving DecidableEq, Repr

/-- The matching loop of `handleSubmit` (edit page, lines 342-355): for each
submitted text in order, find the first existing option whose text matches
exactly and whose id is not already marked kept; mark it kept, otherwise
append the text to the create list.  The JavaScript `Set` of kept ids is
modelled as a list queried by `contains`. -/
def reconcileAux (existing : List PollOption) :
    List String → List String → List String → List String × List String
  | [], toKeep, toCreate => (toKeep, toCreate)
  | t :: ts, toKeep, toCreate =>
    match existing.find? (fun e => !(toKeep.contains e.id) && e.option_text == t) with
    | some m => reconcileAux existing ts (toKeep ++ [m.id]) toCreate
    | none => reconcileAux existing ts toKeep (toCreate ++ [t])

/-- The reconciliation diff of `handleSubmit` (edit page, lines 333-371):
blank submitted texts are filtered out first (`option.trim() !== ''`), the
matching loop runs, and every existing option not marked kept is placed in
`toDelete`. -/
def reconcile (existing : List PollOption) (submitted : List String) : ReconcileResult :=
  let currentOptionTexts := submitted.filter (fun o => jsTrim o != "")
  let pair := reconcileAux existing currentOptionTexts [] []
  { toKeep := pair.1
    toCreate := pair.2
    toDelete := existing.filter (fun o => !(pair.1.contains o.id)) }

/-- `List.contains` agrees with membership for strings. -/
lemma contains_iff (l : List String) (a : String) : l.contains a = true ↔ a ∈ l :=
  List.elem_iff

/-- Every id in the accumulator produced by the matching loop was either there
already or is the id of an existing option. -/
lemma reconcileAux_keep_mem (existing : List PollOption) :
    ∀ (texts acc accC : List String) (i : String),
      i ∈ (reconcileAux existing texts acc accC).1 →
      i ∈ acc ∨ i ∈ existing.map PollOption.id := by
  intro texts
  induction texts with
  | nil => intro acc accC i h; exact Or.inl h
  | cons t ts ih =>
    intro acc accC i h
    rw [reconcileAux] at h
    cases hf : existing.find? (fun e => !(acc.contains e.id) && e.option_text == t) with
    | some m =>
      rw [hf] at h
      rcases ih (acc ++ [m.id]) accC i h with hi | hi
      · rcases List.mem_append.1 hi with hi | hi
        · exact Or.inl hi
        · refine Or.inr ?_
          rcases List.mem_singleton.1 hi with rfl
          exact List.mem_map_of_mem PollOption.id (List.mem_of_find?_eq_some hf)
      · exact Or.inr hi
    | none =>
      rw [hf] at h
      exact ih acc (accC ++ [t]) i h

/-- Claim C1 (Reconciler partition): for every pair of existing options and
submitted texts, the set of kept ids together with the ids of the options in
`toDelete` is exactly the set of ids of the existing options, and the two
sets are disjoint. -/
theorem reconcile_partition (existing : List PollOption) (submitted : List String) :
    (∀ i, (i ∈ (reconcile existing submitted).toKeep ∨
           i ∈ (reconcile existing submitted).toDelete.map PollOption.id) ↔
          i ∈ existing.map PollOption.id) ∧
    (∀ i, i ∈ (reconcile existing submitted).toKeep →
          i ∉ (reconcile existing submitted).toDelete.map PollOption.id) := by
  constructor
  · intro i
    constructor
    · rintro (h | h)
      · rcases reconcileAux_keep_mem existing
          (submitted.filter (fun o => jsTrim o != "")) [] [] i h with hi | hi
        · exact absurd hi (List.not_mem_nil i)
        · exact hi
      · rcases List.mem_map.1 h with ⟨o, ho, rfl⟩
        exact List.mem_map_of_mem PollOption.id (List.mem_of_mem_filter ho)
    · intro h
      rcases List.mem_map.1 h with ⟨o, ho, rfl⟩
      by_cases hc :
          (reconcile existing submitted).toKeep.contains o.id = true
      · exact Or.inl ((contains_iff _ _).1 hc)
      · refine Or.inr (List.mem_map_of_mem PollOption.id ?_)
        simp only [reconcile]
        refine List.mem_filter.2 ⟨ho, ?_⟩
        simpa using hc
  · intro i hkeep hdel
    rcases List.mem_map.1 hdel with ⟨o, ho, rfl⟩
    have := (List.mem_filter.1 ho).2
    simp only [Bool.not_eq_true'] at this
    rw [← contains_iff] at hkeep
    simp only [reconcile] at hkeep this
    rw [this] at hkeep
    exact Bool.false_ne_true hkeep

/-- Claim C1 witness: the disjointness half of the partition theorem applied
at a concrete input. -/
theorem reconcile_partition_witness :
    ("1" : String) ∉ (reconcile [⟨"1", "A"⟩] ["A"]).toDelete.map PollOption.id :=
  (reconcile_partition [⟨"1", "A"⟩] ["A"]).2 "1" (by decide)

/-- Claim C2 (Duplicate-text tie-break): with a single existing option and the
same non-blank text submitted twice, the first occurrence consumes the match
and the second becomes a create; nothing is deleted. -/
theorem reconcile_duplicate_first_match (i t : String) (h : jsTrim t ≠ "") :
    reconcile [⟨i, t⟩] [t, t] =
      { toKeep := [i], toCreate := [t], toDelete := [] } := by
  have hb : (jsTrim t != "") = true := by simpa using h
  simp [reconcile, reconcileAux, hb, List.filter]

/-- Claim C2 witness: the concrete instance from the specification, existing
option (id 1, text A) with submitted list A, A. -/
theorem reconcile_duplicate_first_match_witness :
    reconcile [⟨"1", "A"⟩] ["A", "A"] =
      { toKeep := ["1"], toCreate := ["A"], toDelete := [] } :=
  reconcile_duplicate_first_match "1" "A" (by decide)

/-- Texts appended to the create list by the matching loop all come from the
text list or the initial accumulator. -/
lemma reconcileAux_create_pred (existing : List PollOption) (p : String → Prop) :
    ∀ (texts acc accC : List String),
      (∀ t ∈ texts, p t) → (∀ t ∈ accC, p t) →
      ∀ t ∈ (reconcileAux existing texts acc accC).2, p t := by
  intro texts
  induction texts with
  | nil => intro acc accC _ hC t ht; exact hC t ht
  | cons t ts ih =>
    intro acc accC hT hC u hu
    rw [reconcileAux] at hu
    cases hf : existing.find? (fun e => !(acc.contains e.id) && e.option_text == t) with
    | some m =>
      rw [hf] at hu
      exact ih (acc ++ [m.id]) accC (fun x hx => hT x (List.mem_cons_of_mem t hx)) hC u hu
    | none =>
      rw [hf] at hu
      refine ih acc (accC ++ [t]) (fun x hx => hT x (List.mem_cons_of_mem t hx)) ?_ u hu
      intro x hx
      rcases List.mem_append.1 hx with hx | hx
      · exact hC x hx
      · rcases List.mem_singleton.1 hx with rfl
        exact hT x (List.mem_cons_self x ts)

/-- Claim C6 (Blank filtering): blank or whitespace-only submitted texts are
discarded before matching, so reconciling is unchanged by pre-filtering them,
no blank text ever appears in `toCreate`, and an all-blank submitted list
keeps nothing, creates nothing and deletes every existing option. -/
theorem reconcile_blank_filtering (existing : List PollOption) (submitted : List String) :
    reconcile existing submitted =
      reconcile existing (submitted.filter (fun t => jsTrim t != "")) ∧
    (∀ t ∈ (reconcile existing submitted).toCreate, jsTrim t ≠ "") ∧
    ((∀ t ∈ submitted, jsTrim t = "") →
      (reconcile existing submitted).toKeep = [] ∧
      (reconcile existing submitted).toCreate = [] ∧
      (reconcile existing submitted).toDelete = existing) := by
  have hff : (submitted.filter (fun t => jsTrim t != "")).filter (fun t => jsTrim t != "") =
      submitted.filter (fun t => jsTrim t != "") := by
    rw [List.filter_filter]
    exact List.filter_congr (fun x _ => Bool.and_self _)
  refine ⟨?_, ?_, ?_⟩
  · simp only [reconcile, hff]
  · intro t ht
    refine reconcileAux_create_pred existing (fun u => jsTrim u ≠ "")
      (submitted.filter (fun o => jsTrim o != "")) [] [] ?_ (by simp) t ht
    intro x hx
    have := (List.mem_filter.1 hx).2
    simpa using this
  · intro hall
    have hnil : submitted.filter (fun t => jsTrim t != "") = [] := by
      refine List.filter_eq_nil_iff.2 ?_
      intro a ha
      simp [hall a ha]
    refine ⟨?_, ?_, ?_⟩
    · simp [reconcile, hnil, reconcileAux]
    · simp [reconcile, hnil, reconcileAux]
    · simp only [reconcile, hnil, reconcileAux]
      exact List.filter_eq_self.2 (fun a _ => rfl)

/-- Claim C6 witness: a poll with one existing option and an all-whitespace
submitted list keeps nothing, creates nothing and deletes the option. -/
theorem reconcile_blank_filtering_witness :
    (reconcile [⟨"1", "A"⟩] [" ", ""]).toKeep = [] ∧
    (reconcile [⟨"1", "A"⟩] [" ", ""]).toCreate = [] ∧
    (reconcile [⟨"1", "A"⟩] [" ", ""]).toDelete = [⟨"1", "A"⟩] :=
  (reconcile_blank_filtering [⟨"1", "A"⟩] [" ", ""]).2.2 (by decide)

/-- Splitting a filter over a disjunction of boolean predicates, up to
permutation: the elements satisfying `p` or `q` are the elements satisfying
`p` together with those satisfying `q` but not `p`. -/
lemma filter_or_perm {α : Type} (p q : α → Bool) :
    ∀ l : List α,
      (l.filter (fun a => p a || q a)).Perm
        (l.filter p ++ l.filter (fun a => !(p a) && q a)) := by
  intro l
  induction l with
  | nil => simp
  | cons a l ih =>
    by_cases hp : p a = true
    · simp only [List.filter_cons, hp, Bool.true_or, if_true, Bool.not_true,
        Bool.false_and, if_neg (Bool.false_ne_true), List.cons_append]
      exact ih.cons a
    · have hp' : p a = false := by simpa using hp
      by_cases hq : q a = true
      · simp only [List.filter_cons, hp', hq, Bool.false_or, if_true, Bool.not_false,
          Bool.true_and]
        exact (ih.cons a).trans List.perm_middle.symm
      · have hq' : q a = false := by simpa using hq
        simp only [List.filter_cons, hp', hq', Bool.false_or, if_neg (Bool.false_ne_true),
          Bool.not_false, Bool.true_and]
        exact ih

/-- On a duplicate-free list, a predicate that holds exactly at one member
filters down to the singleton of that member. -/
lemma filter_eq_singleton_of {α : Type} {p : α → Bool} {a : α} :
    ∀ {l : List α}, l.Nodup → a ∈ l → p a = true →
      (∀ b ∈ l, p b = true → b = a) → l.filter p = [a] := by
  intro l
  induction l with
  | nil => intro _ ha; exact absurd ha (List.not_mem_nil a)
  | cons b l ih =>
    intro hnd hmem hpa hall
    rcases List.mem_cons.1 hmem with rfl | hmem'
    · rw [List.filter_cons, if_pos hpa]
      have hnil : l.filter p = [] := by
        refine List.filter_eq_nil_iff.2 ?_
        intro c hc hpc
        have hca : c = a := hall c (List.mem_cons_of_mem _ hc) hpc
        exact (List.nodup_cons.1 hnd).1 (hca ▸ hc)
      rw [hnil]
    · have hba : b ≠ a := by
        intro hba
        exact (List.nodup_cons.1 hnd).1 (hba ▸ hmem')
      have hpb : p b = false := by
        cases hpb : p b with
        | false => rfl
        | true => exact absurd (hall b (List.mem_cons_self b l) hpb) hba
      rw [List.filter_cons, if_neg (by simp [hpb])]
      exact ih (List.nodup_cons.1 hnd).2 hmem' hpa
        (fun c hc hpc => hall c (List.mem_cons_of_mem _ hc) hpc)

/-- Moving a singleton from the middle of an append to the head of the last
component, up to permutation. -/
lemma perm_rotate {α : Type} (A C ts : List α) (t : α) :
    ((A ++ [t]) ++ (C ++ ts)).Perm (A ++ (C ++ (t :: ts))) := by
  rw [List.append_assoc]
  refine List.Perm.append_left A ?_
  rw [← List.append_assoc]
  refine (List.Perm.append_right ts List.perm_append_comm).trans ?_
  rw [List.append_assoc, List.singleton_append]

/-- The remaining (not yet kept) options after keeping one more id `m.id`:
with duplicate-free ids this is the previous remaining list with the matched
option erased. -/
lemma remaining_after_keep (existing : List PollOption)
    (hnd : (existing.map PollOption.id).Nodup) (acc : List String) (m : PollOption)
    (hm : m ∈ existing) :
    existing.filter (fun o => !((acc ++ [m.id]).contains o.id)) =
      (existing.filter (fun o => !(acc.contains o.id))).erase m := by
  have hndE : existing.Nodup := List.Nodup.of_map PollOption.id hnd
  have hR : (existing.filter (fun o => !(acc.contains o.id))).Nodup :=
    List.Nodup.filter _ hndE
  rw [List.Nodup.erase_eq_filter hR m, List.filter_filter]
  refine List.filter_congr ?_
  intro o hoE
  by_cases hom : o = m
  · subst hom
    simp
  · have hid : o.id ≠ m.id := by
      intro hid
      exact hom (List.inj_on_of_nodup_map hnd hoE hm hid)
    simp [hom, hid]

/-- Completeness of the greedy matcher: if the pending texts are exactly (as a
multiset) the texts of the not-yet-kept existing options, then the loop
creates nothing new and ends with every existing option kept.  Requires
pairwise-distinct option ids. -/
lemma reconcileAux_complete (existing : List PollOption)
    (hnd : (existing.map PollOption.id).Nodup) :
    ∀ (texts acc accC : List String),
      texts.Perm
        ((existing.filter (fun o => !(acc.contains o.id))).map PollOption.option_text) →
      (reconcileAux existing texts acc accC).2 = accC ∧
      existing.filter
        (fun o => !((reconcileAux existing texts acc accC).1.contains o.id)) = [] := by
  intro texts
  induction texts with
  | nil =>
    intro acc accC hperm
    have hmapnil :
        (existing.filter (fun o => !(acc.contains o.id))).map PollOption.option_text = [] :=
      List.perm_nil.1 hperm.symm
    have hfilnil : existing.filter (fun o => !(acc.contains o.id)) = [] :=
      List.map_eq_nil_iff.1 hmapnil
    exact ⟨rfl, hfilnil⟩
  | cons t ts ih =>
    intro acc accC hperm
    have ht : t ∈ (existing.filter (fun o => !(acc.contains o.id))).map PollOption.option_text :=
      hperm.mem_iff.1 (List.mem_cons_self t ts)
    rcases List.mem_map.1 ht with ⟨o, ho, hot⟩
    have hoE : o ∈ existing := (List.mem_filter.1 ho).1
    have hoA : (!(acc.contains o.id)) = true := (List.mem_filter.1 ho).2
    rw [reconcileAux]
    cases hf : existing.find? (fun e => !(acc.contains e.id) && e.option_text == t) with
    | none =>
      exfalso
      apply List.find?_eq_none.1 hf o hoE
      have hnotin : o.id ∉ acc := by simpa using hoA
      simp [hot, hnotin]
    | some m =>
      have hm_mem : m ∈ existing := List.mem_of_find?_eq_some hf
      have hm_pred : (!(acc.contains m.id)) = true ∧ (m.option_text == t) = true := by
        simpa using List.find?_some hf
      have hmA : (!(acc.contains m.id)) = true := hm_pred.1
      have hmT : m.option_text = t := by simpa using hm_pred.2
      have hmR : m ∈ existing.filter (fun o => !(acc.contains o.id)) :=
        List.mem_filter.2 ⟨hm_mem, hmA⟩
      have hnext : ts.Perm
          ((existing.filter (fun o => !((acc ++ [m.id]).contains o.id))).map
            PollOption.option_text) := by
        rw [remaining_after_keep existing hnd acc m hm_mem]
        have h1 : (existing.filter (fun o => !(acc.contains o.id))).Perm
            (m :: (existing.filter (fun o => !(acc.contains o.id))).erase m) :=
          List.perm_cons_erase hmR
        have h2 := (h1.map PollOption.option_text).symm
        rw [List.map_cons, hmT] at h2
        exact (hperm.trans h2.symm).cons_inv
      exact ih (acc ++ [m.id]) accC hnext

/-- Claim C3, corrected: the claim fails as stated.  First input: one existing
option whose text is a single space and the submitted list equal to its text
list; the option is nevertheless deleted.  Second input: two existing options
sharing one id with the submitted list equal to their texts; a create is
nevertheless produced. -/
theorem reconcile_multiset_counterexample :
    ([" "] = ([⟨"1", " "⟩] : List PollOption).map PollOption.option_text ∧
      (reconcile [⟨"1", " "⟩] [" "]).toDelete ≠ []) ∧
    (["A", "B"] = ([⟨"1", "A"⟩, ⟨"1", "B"⟩] : List PollOption).map PollOption.option_text ∧
      (reconcile [⟨"1", "A"⟩, ⟨"1", "B"⟩] ["A", "B"]).toCreate ≠ []) := by
  decide

/-- Claim C3, amended (Reconciler exact-match idempotence): if the existing
options have pairwise-distinct ids and non-blank texts, and the submitted
texts equal the texts of the existing options as a multiset, then the
reconciliation diff creates nothing and deletes nothing. -/
theorem reconcile_exact_multiset (existing : List PollOption) (submitted : List String)
    (hid : (existing.map PollOption.id).Nodup)
    (hblank : ∀ o ∈ existing, jsTrim o.option_text ≠ "")
    (hperm : submitted.Perm (existing.map PollOption.option_text)) :
    (reconcile existing submitted).toCreate = [] ∧
    (reconcile existing submitted).toDelete = [] := by
  have hfil : (existing.map PollOption.option_text).filter (fun t => jsTrim t != "") =
      existing.map PollOption.option_text := by
    refine List.filter_eq_self.2 ?_
    intro a ha
    rcases List.mem_map.1 ha with ⟨o, ho, rfl⟩
    simpa using hblank o ho
  have hrem : existing.filter (fun o => !(([] : List String).contains o.id)) = existing :=
    List.filter_eq_self.2 (fun a _ => rfl)
  have htexts : (submitted.filter (fun t => jsTrim t != "")).Perm
      ((existing.filter (fun o => !(([] : List String).contains o.id))).map
        PollOption.option_text) := by
    rw [hrem]
    exact (hperm.filter _).trans (by rw [hfil])
  have := reconcileAux_complete existing hid
    (submitted.filter (fun t => jsTrim t != "")) [] [] htexts
  exact ⟨this.1, this.2⟩

/-- Claim C3 witness: two existing options with distinct ids and texts, and
the same texts submitted in swapped order, produce no creates and no
deletes. -/
theorem reconcile_exact_multiset_witness :
    (reconcile [⟨"1", "A"⟩, ⟨"2", "B"⟩] ["B", "A"]).toCreate = [] ∧
    (reconcile [⟨"1", "A"⟩, ⟨"2", "B"⟩] ["B", "A"]).toDelete = [] :=
  reconcile_exact_multiset [⟨"1", "A"⟩, ⟨"2", "B"⟩] ["B", "A"]
    (by decide) (by decide) (by decide)

/-- Multiset invariant of the matching loop: the texts of the options kept by
the final accumulator, together with the created texts, are a permutation of
the texts kept by the initial accumulator, the initial create list and the
pending texts.  Requires pairwise-distinct option ids. -/
lemma reconcileAux_perm (existing : List PollOption)
    (hnd : (existing.map PollOption.id).Nodup) :
    ∀ (texts acc accC : List String),
      (((existing.filter (fun o => (reconcileAux existing texts acc accC).1.contains o.id)).map
          PollOption.option_text) ++ (reconcileAux existing texts acc accC).2).Perm
        (((existing.filter (fun o => acc.contains o.id)).map PollOption.option_text) ++
          (accC ++ texts)) := by
  intro texts
  induction texts with
  | nil =>
    intro acc accC
    simp only [reconcileAux, List.append_nil]
    exact List.Perm.refl _
  | cons t ts ih =>
    intro acc accC
    rw [reconcileAux]
    cases hf : existing.find? (fun e => !(acc.contains e.id) && e.option_text == t) with
    | none =>
      refine (ih acc (accC ++ [t])).trans ?_
      rw [List.append_assoc, List.singleton_append]
    | some m =>
      have hm_mem : m ∈ existing := List.mem_of_find?_eq_some hf
      have hm_pred : (!(acc.contains m.id)) = true ∧ (m.option_text == t) = true := by
        simpa using List.find?_some hf
      have hmA : (!(acc.contains m.id)) = true := hm_pred.1
      have hmT : m.option_text = t := by simpa using hm_pred.2
      refine (ih (acc ++ [m.id]) accC).trans ?_
      have hcongr : existing.filter (fun o => (acc ++ [m.id]).contains o.id) =
          existing.filter (fun o => acc.contains o.id || decide (o.id = m.id)) :=
        List.filter_congr (fun o _ => by simp)
      have hsing :
          existing.filter (fun o => !(acc.contains o.id) && decide (o.id = m.id)) = [m] := by
        refine filter_eq_singleton_of (List.Nodup.of_map PollOption.id hnd) hm_mem ?_ ?_
        · have hmnot : m.id ∉ acc := by simpa using hmA
          simp [hmnot]
        · intro b hb hpb
          rw [Bool.and_eq_true] at hpb
          exact List.inj_on_of_nodup_map hnd hb hm_mem (of_decide_eq_true hpb.2)
      have hsplit : (existing.filter (fun o => (acc ++ [m.id]).contains o.id)).Perm
          ((existing.filter (fun o => acc.contains o.id)) ++ [m]) := by
        rw [hcongr]
        refine (filter_or_perm _ _ existing).trans ?_
        rw [hsing]
      have hmap := hsplit.map PollOption.option_text
      rw [List.map_append, List.map_cons, List.map_nil, hmT] at hmap
      exact (List.Perm.append_right (accC ++ ts) hmap).trans
        (perm_rotate _ accC ts t)

/-- The texts persisted for the poll after a successful apply phase of
`handleSubmit` (edit page, lines 357-404): the existing rows whose ids were
marked kept remain (the delete loop removes exactly the rows of `toDelete`,
which is the complement of `toKeep` within the existing rows), and one new
row is inserted per entry of `toCreate`. -/
def finalTexts (existing : List PollOption) (submitted : List String) : List String :=
  ((existing.filter (fun o => (reconcile existing submitted).toKeep.contains o.id)).map
    PollOption.option_text) ++ (reconcile existing submitted).toCreate

/-- Claim C8, corrected: the claim fails as stated.  First input: one existing
option with text A (texts trivially pairwise distinct) and submitted list
A, A; after the apply phase the poll holds two options with text A.  Second
input: two existing options with distinct texts but a shared id and a
duplicate-free submitted list equal to their texts; the result again has a
repeated text. -/
theorem option_text_unique_counterexample :
    (([⟨"1", "A"⟩] : List PollOption).map PollOption.option_text).Nodup ∧
    ¬ (finalTexts [⟨"1", "A"⟩] ["A", "A"]).Nodup ∧
    (([⟨"1", "A"⟩, ⟨"1", "B"⟩] : List PollOption).map PollOption.option_text).Nodup ∧
    (["A", "B"] : List String).Nodup ∧
    ¬ (finalTexts [⟨"1", "A"⟩, ⟨"1", "B"⟩] ["A", "B"]).Nodup := by
  decide

/-- Claim C8, amended (Option-text uniqueness): if the existing options have
pairwise-distinct ids and pairwise-distinct texts, and the non-blank
submitted texts are pairwise distinct, then after the reconciliation diff and
apply phase the persisted option texts are still pairwise distinct. -/
theorem finalTexts_unique (existing : List PollOption) (submitted : List String)
    (hid : (existing.map PollOption.id).Nodup)
    (_htext : (existing.map PollOption.option_text).Nodup)
    (hsub : (submitted.filter (fun t => jsTrim t != "")).Nodup) :
    (finalTexts existing submitted).Nodup := by
  have hbase := reconcileAux_perm existing hid
    (submitted.filter (fun t => jsTrim t != "")) [] []
  have hnilK : existing.filter (fun o => (([] : List String)).contains o.id) = [] :=
    List.filter_eq_nil_iff.2 (fun a _ h => by simp at h)
  rw [hnilK] at hbase
  simp only [List.map_nil, List.nil_append] at hbase
  have hperm : (finalTexts existing submitted).Perm
      (submitted.filter (fun t => jsTrim t != "")) := by
    simpa [finalTexts, reconcile] using hbase
  exact (hperm.nodup_iff).2 hsub

/-- Claim C8 witness: a kept option plus a genuinely new text leaves the
persisted texts duplicate-free. -/
theorem finalTexts_unique_witness :
    (finalTexts [⟨"1", "A"⟩] ["A", "C"]).Nodup :=
  finalTexts_unique [⟨"1", "A"⟩] ["A", "C"] (by decide) (by decide) (by decide)

/-- The remote-store calls issued by the apply phase of `handleSubmit`
(edit page, lines 315-404): the poll metadata update, one insert per created
option, and per deleted option the vote check, the conditional vote delete
and the option-row delete. -/
inductive StoreEvent where
  | updatePoll : StoreEvent
  | insertOption : String → StoreEvent
  | checkVotes : String → StoreEvent
  | deleteVotes : String → StoreEvent
  | deleteOption : String → StoreEvent
  deriving DecidableEq, Repr

/-- Oracle for the remote store during one apply phase: whether each call
succeeds, and for the vote check which votes it returns (`none` models the
call returning success `false`, mirroring `checkVotesForOptionSecure`). -/
structure Store where
  updatePollOk : Bool
  insertOptionOk : String → Bool
  checkVotesResult : String → Option (List String)
  deleteVotesOk : String → Bool
  deleteOptionOk : String → Bool

/-- Whether the store succeeds on a given call. -/
def eventOk (store : Store) : StoreEvent → Bool
  | StoreEvent.updatePoll => store.updatePollOk
  | StoreEvent.insertOption t => store.insertOptionOk t
  | StoreEvent.checkVotes i => (store.checkVotesResult i).isSome
  | StoreEvent.deleteVotes i => store.deleteVotesOk i
  | StoreEvent.deleteOption i => store.deleteOptionOk i

/-- Step 4 of `handleSubmit` (edit page, lines 357-368): insert each created
option in order; a failed insert throws, aborting the loop.  Returns the
trace of issued calls and whether the loop completed. -/
def insertPhase (store : Store) : List String → List StoreEvent × Bool
  | [] => ([], true)
  | t :: ts =>
    if store.insertOptionOk t then
      (StoreEvent.insertOption t :: (insertPhase store ts).1, (insertPhase store ts).2)
    else ([StoreEvent.insertOption t], false)

/-- Step 5 of `handleSubmit` (edit page, lines 370-404): for each option to
delete, check its votes via `checkVotesForOptionSecure`; if votes exist,
delete them via `deleteVotesForOptionSecure`; then delete the option row via
`deletePollOptionSecure`.  Any failed call throws, aborting the loop.
Returns the trace of issued calls and whether the loop completed. -/
def deletePhase (store : Store) : List PollOption → List StoreEvent × Bool
  | [] => ([], true)
  | o :: rest =>
    match store.checkVotesResult o.id with
    | none => ([StoreEvent.checkVotes o.id], false)
    | some vs =>
      if 0 < vs.length then
        if store.deleteVotesOk o.id then
          if store.deleteOptionOk o.id then
            (StoreEvent.checkVotes o.id :: StoreEvent.deleteVotes o.id ::
              StoreEvent.deleteOption o.id :: (deletePhase store rest).1,
              (deletePhase store rest).2)
          else ([StoreEvent.checkVotes o.id, StoreEvent.deleteVotes o.id,
              StoreEvent.deleteOption o.id], false)
        else ([StoreEvent.checkVotes o.id, StoreEvent.deleteVotes o.id], false)
      else
        if store.deleteOptionOk o.id then
          (StoreEvent.checkVotes o.id :: StoreEvent.deleteOption o.id ::
            (deletePhase store rest).1, (deletePhase store rest).2)
        else ([StoreEvent.checkVotes o.id, StoreEvent.deleteOption o.id], false)

/-- The complete apply phase of `handleSubmit` (edit page, lines 315-404):
poll metadata update first, then the create loop, then the delete loop; any
thrown error skips all remaining steps. -/
def applyPhase (store : Store) (toCreate : List String) (toDel : List PollOption) :
    List StoreEvent × Bool :=
  if store.updatePollOk then
    if (insertPhase store toCreate).2 then
      (StoreEvent.updatePoll ::
        ((insertPhase store toCreate).1 ++ (deletePhase store toDel).1),
        (deletePhase store toDel).2)
    else (StoreEvent.updatePoll :: (insertPhase store toCreate).1, false)
  else ([StoreEvent.updatePoll], false)

/-- The calls one option's delete sequence issues when every call succeeds:
vote check, vote delete when votes exist, then the option-row delete. -/
def optionBlock (store : Store) (o : PollOption) : List StoreEvent :=
  match store.checkVotesResult o.id with
  | none => [StoreEvent.checkVotes o.id]
  | some vs =>
    if 0 < vs.length then
      [StoreEvent.checkVotes o.id, StoreEvent.deleteVotes o.id, StoreEvent.deleteOption o.id]
    else
      [StoreEvent.checkVotes o.id, StoreEvent.deleteOption o.id]

/-- Concatenation of the per-option delete sequences, one option after the
other. -/
def blocks (store : Store) : List PollOption → List StoreEvent
  | [] => []
  | o :: rest => optionBlock store o ++ blocks store rest

/-- Ordering property of a trace: every option-row delete for an id is
preceded by a vote check for that id, and, when the store reports votes for
that id, also by a vote delete for it. -/
def checkPrecedes (store : Store) (tr : List StoreEvent) : Prop :=
  ∀ i pre post, tr = pre ++ StoreEvent.deleteOption i :: post →
    StoreEvent.checkVotes i ∈ pre ∧
    (∀ vs, store.checkVotesResult i = some vs → 0 < vs.length →
      StoreEvent.deleteVotes i ∈ pre)

/-- The empty trace satisfies the ordering property. -/
lemma checkPrecedes_nil (store : Store) : checkPrecedes store [] := by
  intro i pre post h
  cases pre <;> simp at h

/-- Prepending a call that is not an option-row delete preserves the ordering
property. -/
lemma checkPrecedes_cons_of (store : Store) (x : StoreEvent) (tr : List StoreEvent)
    (hx : ∀ i, x ≠ StoreEvent.deleteOption i) (h : checkPrecedes store tr) :
    checkPrecedes store (x :: tr) := by
  intro i pre post hsplit
  cases pre with
  | nil =>
    simp only [List.nil_append] at hsplit
    exact absurd (List.cons.inj hsplit).1 (hx i)
  | cons a pre' =>
    rw [List.cons_append] at hsplit
    have h1 : x = a := (List.cons.inj hsplit).1
    have h2 : tr = pre' ++ StoreEvent.deleteOption i :: post := (List.cons.inj hsplit).2
    rcases h i pre' post h2 with ⟨hc, hd⟩
    exact ⟨List.mem_cons_of_mem a hc, fun vs hvs hlen => List.mem_cons_of_mem a (hd vs hvs hlen)⟩

/-- A full three-call delete sequence (check, vote delete, option delete)
prepended to a well-ordered trace is well ordered. -/
lemma checkPrecedes_block3 (store : Store) (oid : String) (tr : List StoreEvent)
    (h : checkPrecedes store tr) :
    checkPrecedes store (StoreEvent.checkVotes oid :: StoreEvent.deleteVotes oid ::
      StoreEvent.deleteOption oid :: tr) := by
  intro i pre post hsplit
  match pre with
  | [] => simp at hsplit
  | [a] =>
    rw [List.cons_append, List.nil_append] at hsplit
    exact absurd (List.cons.inj (List.cons.inj hsplit).2).1 (by intro hh; cases hh)
  | [a, b] =>
    rw [List.cons_append, List.cons_append, List.nil_append] at hsplit
    have ha : StoreEvent.checkVotes oid = a := (List.cons.inj hsplit).1
    have hb : StoreEvent.deleteVotes oid = b := (List.cons.inj (List.cons.inj hsplit).2).1
    have hoi : StoreEvent.deleteOption oid = StoreEvent.deleteOption i :=
      (List.cons.inj (List.cons.inj (List.cons.inj hsplit).2).2).1
    have hio : i = oid := by cases hoi; rfl
    subst hio
    constructor
    · rw [ha]
      exact List.mem_cons_self a [b]
    · intro vs _ _
      rw [hb]
      exact List.mem_cons_of_mem a (List.mem_cons_self b [])
  | a :: b :: c :: pre' =>
    rw [List.cons_append, List.cons_append, List.cons_append] at hsplit
    have h3 : tr = pre' ++ StoreEvent.deleteOption i :: post :=
      (List.cons.inj (List.cons.inj (List.cons.inj hsplit).2).2).2
    rcases h i pre' post h3 with ⟨hc, hd⟩
    refine ⟨List.mem_cons_of_mem a (List.mem_cons_of_mem b (List.mem_cons_of_mem c hc)),
      fun vs hvs hlen => ?_⟩
    exact List.mem_cons_of_mem a (List.mem_cons_of_mem b
      (List.mem_cons_of_mem c (hd vs hvs hlen)))

/-- A two-call delete sequence (check reporting no votes, option delete)
prepended to a well-ordered trace is well ordered. -/
lemma checkPrecedes_block2 (store : Store) (oid : String) (vs : List String)
    (tr : List StoreEvent) (hvs : store.checkVotesResult oid = some vs)
    (hlen : ¬ 0 < vs.length) (h : checkPrecedes store tr) :
    checkPrecedes store (StoreEvent.checkVotes oid :: StoreEvent.deleteOption oid :: tr) := by
  intro i pre post hsplit
  match pre with
  | [] => simp at hsplit
  | [a] =>
    rw [List.cons_append, List.nil_append] at hsplit
    have ha : StoreEvent.checkVotes oid = a := (List.cons.inj hsplit).1
    have hoi : StoreEvent.deleteOption oid = StoreEvent.deleteOption i :=
      (List.cons.inj (List.cons.inj hsplit).2).1
    have hio : i = oid := by cases hoi; rfl
    subst hio
    constructor
    · rw [ha]
      exact List.mem_cons_self a []
    · intro vs' hvs' hlen'
      rw [hvs] at hvs'
      cases Option.some.inj hvs'
      exact absurd hlen' hlen
  | a :: b :: pre' =>
    rw [List.cons_append, List.cons_append] at hsplit
    have h3 : tr = pre' ++ StoreEvent.deleteOption i :: post :=
      (List.cons.inj (List.cons.inj hsplit).2).2
    rcases h i pre' post h3 with ⟨hc, hd⟩
    exact ⟨List.mem_cons_of_mem a (List.mem_cons_of_mem b hc),
      fun vs' hvs' hlen' => List.mem_cons_of_mem a (List.mem_cons_of_mem b (hd vs' hvs' hlen'))⟩

/-- Claim C4 (Deletion ordering): in every run of the delete loop, any
option-row delete is strictly preceded by the vote check for the same id and,
when the store reports votes for that id, by the vote delete for it; and in a
fully successful run the trace is exactly the per-option delete sequences,
each completed before the next begins. -/
theorem deletePhase_vote_check_order (store : Store) (opts : List PollOption) :
    checkPrecedes store (deletePhase store opts).1 ∧
    ((deletePhase store opts).2 = true →
      (deletePhase store opts).1 = blocks store opts) := by
  induction opts with
  | nil =>
    exact ⟨checkPrecedes_nil store, fun _ => rfl⟩
  | cons o rest ih =>
    rw [deletePhase]
    cases hv : store.checkVotesResult o.id with
    | none =>
      refine ⟨?_, ?_⟩
      · exact checkPrecedes_cons_of store _ [] (fun i h => by cases h) (checkPrecedes_nil store)
      · intro h
        simp at h
    | some vs =>
      dsimp only
      by_cases hlen : 0 < vs.length
      · rw [if_pos hlen]
        by_cases hdv : store.deleteVotesOk o.id = true
        · rw [if_pos hdv]
          by_cases hdo : store.deleteOptionOk o.id = true
          · rw [if_pos hdo]
            refine ⟨checkPrecedes_block3 store o.id _ ih.1, ?_⟩
            intro h
            rw [blocks, optionBlock, hv]
            dsimp only
            rw [if_pos hlen, ih.2 h]
            rfl
          · rw [if_neg hdo]
            refine ⟨checkPrecedes_block3 store o.id [] (checkPrecedes_nil store), ?_⟩
            intro h
            simp at h
        · rw [if_neg hdv]
          refine ⟨?_, ?_⟩
          · refine checkPrecedes_cons_of store _ _ (fun i h => by cases h) ?_
            exact checkPrecedes_cons_of store _ [] (fun i h => by cases h)
              (checkPrecedes_nil store)
          · intro h
            simp at h
      · rw [if_neg hlen]
        by_cases hdo : store.deleteOptionOk o.id = true
        · rw [if_pos hdo]
          refine ⟨checkPrecedes_block2 store o.id vs _ hv hlen ih.1, ?_⟩
          intro h
          rw [blocks, optionBlock, hv]
          dsimp only
          rw [if_neg hlen, ih.2 h]
          rfl
        · rw [if_neg hdo]
          refine ⟨checkPrecedes_block2 store o.id vs [] hv hlen (checkPrecedes_nil store), ?_⟩
          intro h
          simp at h

/-- All-succeeding store used to witness the ordering theorems on a concrete
run. -/
def demoStore : Store :=
  { updatePollOk := true
    insertOptionOk := fun _ => true
    checkVotesResult := fun _ => some ["v1"]
    deleteVotesOk := fun _ => true
    deleteOptionOk := fun _ => true }

/-- Claim C4 witness: deleting one option with one vote under the
all-succeeding store, the option-row delete at position two is preceded by
the vote check and the vote delete. -/
theorem deletePhase_vote_check_order_witness :
    StoreEvent.checkVotes "1" ∈
      [StoreEvent.checkVotes "1", StoreEvent.deleteVotes "1"] ∧
    (∀ vs, demoStore.checkVotesResult "1" = some vs → 0 < vs.length →
      StoreEvent.deleteVotes "1" ∈
        [StoreEvent.checkVotes "1", StoreEvent.deleteVotes "1"]) :=
  (deletePhase_vote_check_order demoStore [⟨"1", "A"⟩]).1 "1"
    [StoreEvent.checkVotes "1", StoreEvent.deleteVotes "1"] [] (by decide)

/-- Failure behaviour of the create loop: on success every issued call
succeeded; on failure the trace is the succeeded calls followed by exactly
the one failing call, with nothing after it. -/
lemma insertPhase_spec (store : Store) :
    ∀ ts : List String,
      ((insertPhase store ts).2 = true →
        ∀ e ∈ (insertPhase store ts).1, eventOk store e = true) ∧
      ((insertPhase store ts).2 = false →
        ∃ pre e, (insertPhase store ts).1 = pre ++ [e] ∧ eventOk store e = false ∧
          ∀ x ∈ pre, eventOk store x = true) := by
  intro ts
  induction ts with
  | nil =>
    constructor
    · intro _ e he
      simp [insertPhase] at he
    · intro h
      simp [insertPhase] at h
  | cons t ts ih =>
    rw [insertPhase]
    by_cases hins : store.insertOptionOk t = true
    · rw [if_pos hins]
      dsimp only
      constructor
      · intro hok e he
        rcases List.mem_cons.1 he with rfl | he
        · simpa [eventOk] using hins
        · exact ih.1 hok e he
      · intro hok
        rcases ih.2 hok with ⟨pre, e, htr, hbad, hgood⟩
        refine ⟨StoreEvent.insertOption t :: pre, e, ?_, hbad, ?_⟩
        · rw [htr, List.cons_append]
        · intro x hx
          rcases List.mem_cons.1 hx with rfl | hx
          · simpa [eventOk] using hins
          · exact hgood x hx
    · rw [if_neg hins]
      constructor
      · intro h
        simp at h
      · intro _
        exact ⟨[], StoreEvent.insertOption t, rfl, by simpa [eventOk] using hins,
          fun x hx => absurd hx (List.not_mem_nil x)⟩

/-- Failure behaviour of the delete loop: on success every issued call
succeeded; on failure the trace is the succeeded calls followed by exactly
the one failing call, with nothing after it. -/
lemma deletePhase_spec (store : Store) :
    ∀ opts : List PollOption,
      ((deletePhase store opts).2 = true →
        ∀ e ∈ (deletePhase store opts).1, eventOk store e = true) ∧
      ((deletePhase store opts).2 = false →
        ∃ pre e, (deletePhase store opts).1 = pre ++ [e] ∧ eventOk store e = false ∧
          ∀ x ∈ pre, eventOk store x = true) := by
  intro opts
  induction opts with
  | nil =>
    constructor
    · intro _ e he
      simp [deletePhase] at he
    · intro h
      simp [deletePhase] at h
  | cons o rest ih =>
    rw [deletePhase]
    cases hv : store.checkVotesResult o.id with
    | none =>
      constructor
      · intro h
        simp at h
      · intro _
        refine ⟨[], StoreEvent.checkVotes o.id, rfl, ?_,
          fun x hx => absurd hx (List.not_mem_nil x)⟩
        simp [eventOk, hv]
    | some vs =>
      dsimp only
      by_cases hlen : 0 < vs.length
      · rw [if_pos hlen]
        by_cases hdv : store.deleteVotesOk o.id = true
        · rw [if_pos hdv]
          by_cases hdo : store.deleteOptionOk o.id = true
          · rw [if_pos hdo]
            dsimp only
            constructor
            · intro hok e he
              rcases List.mem_cons.1 he with rfl | he
              · simp [eventOk, hv]
              rcases List.mem_cons.1 he with rfl | he
              · simpa [eventOk] using hdv
              rcases List.mem_cons.1 he with rfl | he
              · simpa [eventOk] using hdo
              · exact ih.1 hok e he
            · intro hbad
              rcases ih.2 hbad with ⟨pre, e, htr, hbadE, hgood⟩
              refine ⟨StoreEvent.checkVotes o.id :: StoreEvent.deleteVotes o.id ::
                StoreEvent.deleteOption o.id :: pre, e, ?_, hbadE, ?_⟩
              · rw [htr]
                simp [List.cons_append]
              · intro x hx
                rcases List.mem_cons.1 hx with rfl | hx
                · simp [eventOk, hv]
                rcases List.mem_cons.1 hx with rfl | hx
                · simpa [eventOk] using hdv
                rcases List.mem_cons.1 hx with rfl | hx
                · simpa [eventOk] using hdo
                · exact hgood x hx
          · rw [if_neg hdo]
            constructor
            · intro h
              simp at h
            · intro _
              refine ⟨[StoreEvent.checkVotes o.id, StoreEvent.deleteVotes o.id],
                StoreEvent.deleteOption o.id, rfl, by simpa [eventOk] using hdo, ?_⟩
              intro x hx
              rcases List.mem_cons.1 hx with rfl | hx
              · simp [eventOk, hv]
              rcases List.mem_cons.1 hx with rfl | hx
              · simpa [eventOk] using hdv
              · exact absurd hx (List.not_mem_nil x)
        · rw [if_neg hdv]
          constructor
          · intro h
            simp at h
          · intro _
            refine ⟨[StoreEvent.checkVotes o.id], StoreEvent.deleteVotes o.id, rfl,
              by simpa [eventOk] using hdv, ?_⟩
            intro x hx
            rcases List.mem_cons.1 hx with rfl | hx
            · simp [eventOk, hv]
            · exact absurd hx (List.not_mem_nil x)
      · rw [if_neg hlen]
        by_cases hdo : store.deleteOptionOk o.id = true
        · rw [if_pos hdo]
          dsimp only
          constructor
          · intro hok e he
            rcases List.mem_cons.1 he with rfl | he
            · simp [eventOk, hv]
            rcases List.mem_cons.1 he with rfl | he
            · simpa [eventOk] using hdo
            · exact ih.1 hok e he
          · intro hbad
            rcases ih.2 hbad with ⟨pre, e, htr, hbadE, hgood⟩
            refine ⟨StoreEvent.checkVotes o.id :: StoreEvent.deleteOption o.id :: pre,
              e, ?_, hbadE, ?_⟩
            · rw [htr]
              simp [List.cons_append]
            · intro x hx
              rcases List.mem_cons.1 hx with rfl | hx
              · simp [eventOk, hv]
              rcases List.mem_cons.1 hx with rfl | hx
              · simpa [eventOk] using hdo
              · exact hgood x hx
        · rw [if_neg hdo]
          constructor
          · intro h
            simp at h
          · intro _
            refine ⟨[StoreEvent.checkVotes o.id], StoreEvent.deleteOption o.id, rfl,
              by simpa [eventOk] using hdo, ?_⟩
            intro x hx
            rcases List.mem_cons.1 hx with rfl | hx
            · simp [eventOk, hv]
            · exact absurd hx (List.not_mem_nil x)

/-- Claim C5 (Partial-completion failure semantics): in every run of the
apply phase, if the run reports success every issued call succeeded, and if
it reports failure the trace consists of the calls that succeeded followed by
exactly the one failing call — no later apply step is issued, the error is
surfaced in the returned flag, and the already-applied calls stand with no
compensating call in the trace. -/
theorem applyPhase_fail_fast (store : Store) (toCreate : List String)
    (toDel : List PollOption) :
    ((applyPhase store toCreate toDel).2 = true →
      ∀ e ∈ (applyPhase store toCreate toDel).1, eventOk store e = true) ∧
    ((applyPhase store toCreate toDel).2 = false →
      ∃ pre e, (applyPhase store toCreate toDel).1 = pre ++ [e] ∧
        eventOk store e = false ∧ ∀ x ∈ pre, eventOk store x = true) := by
  rw [applyPhase]
  by_cases hup : store.updatePollOk = true
  · rw [if_pos hup]
    by_cases hins : (insertPhase store toCreate).2 = true
    · rw [if_pos hins]
      dsimp only
      constructor
      · intro hok e he
        rcases List.mem_cons.1 he with rfl | he
        · simpa [eventOk] using hup
        rcases List.mem_append.1 he with he | he
        · exact (insertPhase_spec store toCreate).1 hins e he
        · exact (deletePhase_spec store toDel).1 hok e he
      · intro hbad
        rcases (deletePhase_spec store toDel).2 hbad with ⟨pre, e, htr, hbadE, hgood⟩
        refine ⟨StoreEvent.updatePoll :: ((insertPhase store toCreate).1 ++ pre), e,
          ?_, hbadE, ?_⟩
        · rw [htr]
          simp [List.cons_append, List.append_assoc]
        · intro x hx
          rcases List.mem_cons.1 hx with rfl | hx
          · simpa [eventOk] using hup
          rcases List.mem_append.1 hx with hx | hx
          · exact (insertPhase_spec store toCreate).1 hins x hx
          · exact hgood x hx
    · rw [if_neg hins]
      dsimp only
      constructor
      · intro h
        simp at h
      · intro _
        have hfalse : (insertPhase store toCreate).2 = false := by simpa using hins
        rcases (insertPhase_spec store toCreate).2 hfalse with ⟨pre, e, htr, hbadE, hgood⟩
        refine ⟨StoreEvent.updatePoll :: pre, e, ?_, hbadE, ?_⟩
        · rw [htr, List.cons_append]
        · intro x hx
          rcases List.mem_cons.1 hx with rfl | hx
          · simpa [eventOk] using hup
          · exact hgood x hx
  · rw [if_neg hup]
    constructor
    · intro h
      simp at h
    · intro _
      exact ⟨[], StoreEvent.updatePoll, rfl, by simpa [eventOk] using hup,
        fun x hx => absurd hx (List.not_mem_nil x)⟩

/-- Store whose option inserts fail, used to witness the failure semantics
on a concrete run. -/
def failStore : Store :=
  { updatePollOk := true
    insertOptionOk := fun _ => false
    checkVotesResult := fun _ => some []
    deleteVotesOk := fun _ => true
    deleteOptionOk := fun _ => true }

/-- Claim C5 witness: with a store whose inserts fail, creating one option
aborts at the insert, leaving the poll update as the only applied call. -/
theorem applyPhase_fail_fast_witness :
    ∃ pre e, (applyPhase failStore ["B"] []).1 = pre ++ [e] ∧
      eventOk failStore e = false ∧ ∀ x ∈ pre, eventOk failStore x = true :=
  (applyPhase_fail_fast failStore ["B"] []).2 (by decide)

/-- A string has length zero exactly when it is empty. -/
lemma string_length_eq_zero (s : String) : s.length = 0 ↔ s = "" := by
  cases s with
  | mk data =>
    simp [String.length, List.length_eq_zero, String.ext_iff]

/-- Result of `PollValidator.validateUserId`: a validity flag and an optional
error message. -/
structure ValidationResult where
  isValid : Bool
  error : Option String
  deriving DecidableEq, Repr

/-- `PollValidator.validateUserId` (poll-actions component, and its
documented duplicate): invalid when the user id is absent, falsy, or trims
to the empty string.  The JavaScript `typeof` check cannot fail in the typed
model. -/
def validateUserId (userId : Option String) : ValidationResult :=
  match userId with
  | none => { isValid := false, error := some "Invalid user ID provided" }
  | some s =>
    if s = "" ∨ (jsTrim s).length = 0 then
      { isValid := false, error := some "Invalid user ID provided" }
    else { isValid := true, error := none }

/-- Result of `PollAuthenticator.checkPollOwnership`: an authorization flag
and an optional error message. -/
structure AuthenticationResult where
  isAuthorized : Bool
  error : Option String
  deriving DecidableEq, Repr

/-- `PollAuthenticator.checkPollOwnership`: reject unauthenticated users via
`validateUserId`, then reject any user id different from the poll creator
id, and authorize otherwise. -/
def checkPollOwnership (currentUserId : Option String) (pollCreatorId : String) :
    AuthenticationResult :=
  if !(validateUserId currentUserId).isValid then
    { isAuthorized := false, error := some "User not authenticated" }
  else if currentUserId ≠ some pollCreatorId then
    { isAuthorized := false, error := some "User not authorized to perform this action" }
  else { isAuthorized := true, error := none }

/-- Claim C7 (Gate totality and correctness): `checkPollOwnership` is a total
pure function; it denies when the current user id is absent or empty (trims
to the empty string, as the validator defines emptiness), denies when the id
differs from the poll creator id, and authorizes otherwise. -/
theorem checkPollOwnership_gate (currentUserId : Option String) (pollCreatorId : String) :
    ((currentUserId = none ∨ ∃ s, currentUserId = some s ∧ jsTrim s = "") →
      (checkPollOwnership currentUserId pollCreatorId).isAuthorized = false) ∧
    ((∀ s, currentUserId = some s → s ≠ pollCreatorId) →
      (checkPollOwnership currentUserId pollCreatorId).isAuthorized = false) ∧
    ((∃ s, currentUserId = some s ∧ jsTrim s ≠ "" ∧ s = pollCreatorId) →
      (checkPollOwnership currentUserId pollCreatorId).isAuthorized = true) := by
  refine ⟨?_, ?_, ?_⟩
  · rintro (rfl | ⟨s, rfl, hs⟩)
    · simp [checkPollOwnership, validateUserId]
    · have hz : (jsTrim s).length = 0 := (string_length_eq_zero _).2 hs
      simp [checkPollOwnership, validateUserId, hz]
  · intro hne
    cases hcu : currentUserId with
    | none => simp [checkPollOwnership, validateUserId]
    | some s =>
      have hs : s ≠ pollCreatorId := hne s hcu
      by_cases hval : s = "" ∨ (jsTrim s).length = 0
      · simp [checkPollOwnership, validateUserId, hval]
      · simp [checkPollOwnership, validateUserId, hval, hs]
  · rintro ⟨s, rfl, hs, rfl⟩
    have hz : (jsTrim s).length ≠ 0 := fun h => hs ((string_length_eq_zero _).1 h)
    have hse : s ≠ "" := by
      intro h
      subst h
      exact hs rfl
    simp [checkPollOwnership, validateUserId, hse, hz]

/-- Claim C7 witness: the gate applied at concrete inputs — absent user
denied, mismatched user denied, owner authorized. -/
theorem checkPollOwnership_gate_witness :
    (checkPollOwnership none "alice").isAuthorized = false ∧
    (checkPollOwnership (some "bob") "alice").isAuthorized = false ∧
    (checkPollOwnership (some "alice") "alice").isAuthorized = true :=
  ⟨(checkPollOwnership_gate none "alice").1 (Or.inl rfl),
    (checkPollOwnership_gate (some "bob") "alice").2.1
      (fun s hs => by cases hs; decide),
    (checkPollOwnership_gate (some "alice") "alice").2.2
      ⟨"alice", rfl, by decide, rfl⟩⟩

/-- An option row as selected by the secure server actions: the owning poll
id and the poll creator id obtained through the inner join on `polls`. -/
structure OptionRow where
  poll_id : String
  owner : String
  deriving DecidableEq, Repr

/-- Server context for the secure actions in
`src/app/lib/actions/poll-actions-secure.ts`: the authenticated user (if
any), the option lookup joined with its poll, and whether the two delete
statements succeed when issued. -/
structure SecureCtx where
  currentUser : Option String
  findOption : String → Option OptionRow
  votesDeleteOk : String → Bool
  optionDeleteOk : String → Bool

/-- Delete statements the secure actions can issue against the store. -/
inductive TableDelete where
  | votesDelete : String → TableDelete
  | optionRowDelete : String → TableDelete
  deriving DecidableEq, Repr

/-- `deleteVotesForOptionSecure`: require an authenticated user, a resolvable
option, and that the user owns the option's poll, before issuing the delete
on `votes`.  Returns the success flag and the delete statements issued. -/
def deleteVotesForOptionSecure (ctx : SecureCtx) (optionId : String) :
    Bool × List TableDelete :=
  match ctx.currentUser with
  | none => (false, [])
  | some uid =>
    match ctx.findOption optionId with
    | none => (false, [])
    | some row =>
      if row.owner ≠ uid then (false, [])
      else (ctx.votesDeleteOk optionId, [TableDelete.votesDelete optionId])

/-- `deletePollOptionSecure`: same guards as `deleteVotesForOptionSecure`,
then the delete on `poll_options`. -/
def deletePollOptionSecure (ctx : SecureCtx) (optionId : String) :
    Bool × List TableDelete :=
  match ctx.currentUser with
  | none => (false, [])
  | some uid =>
    match ctx.findOption optionId with
    | none => (false, [])
    | some row =>
      if row.owner ≠ uid then (false, [])
      else (ctx.optionDeleteOk optionId, [TableDelete.optionRowDelete optionId])

/-- Claim C10 (Server-side ownership gating of secure deletes): when no user
is authenticated, the option cannot be found, or the user is not the owning
poll's creator, both secure actions return failure and issue no delete; and
any issued delete implies the caller is the owning poll's creator. -/
theorem secure_delete_ownership (ctx : SecureCtx) (optionId : String) :
    ((ctx.currentUser = none ∨ ctx.findOption optionId = none ∨
        (∀ u row, ctx.currentUser = some u → ctx.findOption optionId = some row →
          row.owner ≠ u)) →
      deleteVotesForOptionSecure ctx optionId = (false, []) ∧
      deletePollOptionSecure ctx optionId = (false, [])) ∧
    ((deleteVotesForOptionSecure ctx optionId).2 ≠ [] →
      ∃ u row, ctx.currentUser = some u ∧ ctx.findOption optionId = some row ∧
        row.owner = u) ∧
    ((deletePollOptionSecure ctx optionId).2 ≠ [] →
      ∃ u row, ctx.currentUser = some u ∧ ctx.findOption optionId = some row ∧
        row.owner = u) := by
  cases hu : ctx.currentUser with
  | none =>
    refine ⟨fun _ => ?_, ?_, ?_⟩
    · constructor <;> simp [deleteVotesForOptionSecure, deletePollOptionSecure, hu]
    · intro h
      simp [deleteVotesForOptionSecure, hu] at h
    · intro h
      simp [deletePollOptionSecure, hu] at h
  | some u =>
    cases hf : ctx.findOption optionId with
    | none =>
      refine ⟨fun _ => ?_, ?_, ?_⟩
      · constructor <;> simp [deleteVotesForOptionSecure, deletePollOptionSecure, hu, hf]
      · intro h
        simp [deleteVotesForOptionSecure, hu, hf] at h
      · intro h
        simp [deletePollOptionSecure, hu, hf] at h
    | some row =>
      by_cases how : row.owner = u
      · refine ⟨?_, ?_, ?_⟩
        · rintro (h | h | h)
          · cases h
          · cases h
          · exact absurd how (h u row rfl rfl)
        · intro _
          exact ⟨u, row, rfl, rfl, how⟩
        · intro _
          exact ⟨u, row, rfl, rfl, how⟩
      · refine ⟨fun _ => ?_, ?_, ?_⟩
        · constructor <;>
            simp [deleteVotesForOptionSecure, deletePollOptionSecure, hu, hf, how]
        · intro h
          simp [deleteVotesForOptionSecure, hu, hf, how] at h
        · intro h
          simp [deletePollOptionSecure, hu, hf, how] at h

/-- Server context with no authenticated user, for the witness. -/
def anonCtx : SecureCtx :=
  { currentUser := none
    findOption := fun _ => some { poll_id := "p1", owner := "alice" }
    votesDeleteOk := fun _ => true
    optionDeleteOk := fun _ => true }

/-- Claim C10 witness: with no authenticated user both secure actions fail
and issue nothing. -/
theorem secure_delete_ownership_witness :
    deleteVotesForOptionSecure anonCtx "o1" = (false, []) ∧
    deletePollOptionSecure anonCtx "o1" = (false, []) :=
  (secure_delete_ownership anonCtx "o1").1 (Or.inl rfl)

/-- Model of the JavaScript `String.prototype.toLowerCase`, applied
characterwise. -/
def jsToLower (s : String) : String :=
  String.mk (s.data.map Char.toLower)

/-- The create-poll form state: title, description and the option texts. -/
structure PollFormData where
  title : String
  description : String
  options : List String
  deriving DecidableEq, Repr

/-- The `newErrors` object built by `validateForm` on the create-poll page:
an optional title error, an optional description error, and the
`optionErrors` array (absent keys modelled by `none` holes). -/
structure FormErrors where
  title : Option String
  description : Option String
  options : List (Option String)
  deriving DecidableEq, Repr

/-- JavaScript sparse-array index assignment `a[i] = v`: missing slots up to
`i` are filled with holes. -/
def setIdx : List (Option String) → Nat → String → List (Option String)
  | [], 0, v => [some v]
  | [], Nat.succ n, v => none :: setIdx [] n v
  | _ :: xs, 0, v => some v :: xs
  | x :: xs, Nat.succ n, v => x :: setIdx xs n v

/-- The `forEach` pass of `validateForm` assigning a length error at the
index of each non-blank option longer than 100 characters. -/
def optionLengthPass : List String → Nat → List (Option String) → List (Option String)
  | [], _, acc => acc
  | o :: os, i, acc =>
    optionLengthPass os (i + 1)
      (if jsTrim o ≠ "" ∧ (jsTrim o).length > 100 then
        setIdx acc i "Option must be less than 100 characters"
      else acc)

/-- `validateForm` from the create-poll page (lines 112-159): title bounds,
optional description bound, at least two non-blank options, per-option
length bound, and uniqueness of the trimmed lowercased non-blank option
texts (the JavaScript `Set` size is the deduplicated length). -/
def validateForm (pd : PollFormData) : FormErrors :=
  let titleErr : Option String :=
    if jsTrim pd.title = "" then some "Poll title is required"
    else if (jsTrim pd.title).length < 3 then some "Poll title must be at least 3 characters"
    else if (jsTrim pd.title).length > 200 then some "Poll title must be less than 200 characters"
    else none
  let descErr : Option String :=
    if pd.description ≠ "" ∧ pd.description.length > 500 then
      some "Description must be less than 500 characters"
    else none
  let filledOptions := pd.options.filter (fun o => jsTrim o != "")
  let e1 : List (Option String) :=
    if filledOptions.length < 2 then [some "At least 2 options are required"] else []
  let e2 := optionLengthPass pd.options 0 e1
  let trimmedOptions := (pd.options.map (fun o => jsToLower (jsTrim o))).filter
    (fun o => o != "")
  let e3 :=
    if trimmedOptions.length ≠ trimmedOptions.dedup.length then
      e2 ++ [some "Options must be unique"]
    else e2
  { title := titleErr, description := descErr,
    options := if e3.length > 0 then e3 else [] }

/-- `Object.keys(formErrors).length > 0` on the create-poll page: a key is
present exactly when the corresponding error was assigned. -/
def hasErrors (e : FormErrors) : Bool :=
  e.title.isSome || e.description.isSome || !e.options.isEmpty

/-- Remote calls the create-poll `handleSubmit` can issue: the poll insert
(with trimmed title and trimmed-or-null description) and the options insert
(with the non-blank trimmed option texts). -/
inductive CreateEvent where
  | insertPoll : String → Option String → CreateEvent
  | insertOptions : List String → CreateEvent
  deriving DecidableEq, Repr

/-- Outcome of the create-poll `handleSubmit`. -/
inductive CreateOutcome where
  | authError : CreateOutcome
  | validationError : CreateOutcome
  | pollInsertError : CreateOutcome
  | optionsInsertError : CreateOutcome
  | success : CreateOutcome
  deriving DecidableEq, Repr

/-- Success oracles for the two remote inserts of the create-poll flow. -/
structure CreateStore where
  insertPollOk : Bool
  insertOptionsOk : Bool

/-- `handleSubmit` of the create-poll page (lines 182-253): authentication
check, then `validateForm`; on any validation error the handler records the
errors and returns before issuing any remote call; otherwise the poll insert
and then the options insert are issued, each aborting the flow on error. -/
def createHandleSubmit (store : CreateStore) (user : Option String)
    (pd : PollFormData) : List CreateEvent × CreateOutcome :=
  match user with
  | none => ([], CreateOutcome.authError)
  | some _ =>
    if hasErrors (validateForm pd) then ([], CreateOutcome.validationError)
    else
      if store.insertPollOk then
        if store.insertOptionsOk then
          ([CreateEvent.insertPoll (jsTrim pd.title)
              (if jsTrim pd.description = "" then none else some (jsTrim pd.description)),
            CreateEvent.insertOptions
              ((pd.options.filter (fun o => jsTrim o != "")).map jsTrim)],
            CreateOutcome.success)
        else
          ([CreateEvent.insertPoll (jsTrim pd.title)
              (if jsTrim pd.description = "" then none else some (jsTrim pd.description)),
            CreateEvent.insertOptions
              ((pd.options.filter (fun o => jsTrim o != "")).map jsTrim)],
            CreateOutcome.optionsInsertError)
      else
        ([CreateEvent.insertPoll (jsTrim pd.title)
            (if jsTrim pd.description = "" then none else some (jsTrim pd.description))],
          CreateOutcome.pollInsertError)

/-- Sparse assignment produces a list covering both the old length and the
assigned index. -/
lemma setIdx_length (v : String) :
    ∀ (l : List (Option String)) (i : Nat), (setIdx l i v).length = max l.length (i + 1) := by
  intro l
  induction l with
  | nil =>
    intro i
    induction i with
    | zero => simp [setIdx]
    | succ n ihn =>
      rw [setIdx]
      simp only [List.length_nil, List.length_cons, ihn]
      omega
  | cons x xs ih =>
    intro i
    cases i with
    | zero => simp [setIdx]
    | succ n =>
      rw [setIdx]
      simp only [List.length_cons, ih n]
      omega

/-- The length-error pass never shrinks the error array. -/
lemma optionLengthPass_length_ge :
    ∀ (os : List String) (i : Nat) (acc : List (Option String)),
      acc.length ≤ (optionLengthPass os i acc).length := by
  intro os
  induction os with
  | nil => intro i acc; exact Nat.le_refl _
  | cons o os ih =>
    intro i acc
    rw [optionLengthPass]
    by_cases hc : jsTrim o ≠ "" ∧ (jsTrim o).length > 100
    · rw [if_pos hc]
      refine Nat.le_trans ?_ (ih (i + 1) _)
      rw [setIdx_length]
      omega
    · rw [if_neg hc]
      exact ih (i + 1) acc

/-- If some option is non-blank and longer than 100 characters, the
length-error pass produces a non-empty error array. -/
lemma optionLengthPass_pos :
    ∀ (os : List String) (i : Nat) (acc : List (Option String)),
      (∃ o ∈ os, jsTrim o ≠ "" ∧ (jsTrim o).length > 100) →
      0 < (optionLengthPass os i acc).length := by
  intro os
  induction os with
  | nil =>
    intro i acc h
    rcases h with ⟨o, ho, _⟩
    exact absurd ho (List.not_mem_nil o)
  | cons o os ih =>
    intro i acc h
    rw [optionLengthPass]
    rcases h with ⟨o', ho', hcond⟩
    rcases List.mem_cons.1 ho' with rfl | ho'
    · rw [if_pos hcond]
      have h1 : 0 < (setIdx acc i "Option must be less than 100 characters").length := by
        rw [setIdx_length]
        omega
      exact Nat.lt_of_lt_of_le h1 (optionLengthPass_length_ge os (i + 1) _)
    · by_cases hc : jsTrim o ≠ "" ∧ (jsTrim o).length > 100
      · rw [if_pos hc]
        exact ih (i + 1) _ ⟨o', ho', hcond⟩
      · rw [if_neg hc]
        exact ih (i + 1) acc ⟨o', ho', hcond⟩

/-- A duplicate among the trimmed lowercased options makes the deduplicated
length differ from the raw length. -/
lemma dedup_length_ne {l : List String} (h : ¬ l.Nodup) :
    l.length ≠ l.dedup.length := by
  intro heq
  exact h (List.dedup_eq_self.1 ((List.dedup_sublist l).eq_of_length heq.symm))

/-- If the length-error pass yields a non-empty array, or the trimmed
lowercased options contain a duplicate, the `options` key of the validation
errors is present. -/
lemma validateForm_options_nonempty (pd : PollFormData)
    (h : 0 < (optionLengthPass pd.options 0
        (if (pd.options.filter (fun o => jsTrim o != "")).length < 2 then
          [some "At least 2 options are required"] else [])).length ∨
      ¬ ((pd.options.map (fun o => jsToLower (jsTrim o))).filter
          (fun o => o != "")).Nodup) :
    (validateForm pd).options.isEmpty = false := by
  simp only [validateForm]
  generalize hgen : optionLengthPass pd.options 0
      (if (pd.options.filter (fun o => jsTrim o != "")).length < 2 then
        [some "At least 2 options are required"] else []) = E at h ⊢
  have he3 : 0 <
      (if ((pd.options.map (fun o => jsToLower (jsTrim o))).filter
          (fun o => o != "")).length ≠
          ((pd.options.map (fun o => jsToLower (jsTrim o))).filter
            (fun o => o != "")).dedup.length then
        E ++ [some "Options must be unique"]
      else E).length := by
    rcases h with h | h
    · by_cases hdup : ((pd.options.map (fun o => jsToLower (jsTrim o))).filter
          (fun o => o != "")).length ≠
          ((pd.options.map (fun o => jsToLower (jsTrim o))).filter
            (fun o => o != "")).dedup.length
      · rw [if_pos hdup, List.length_append]
        omega
      · rw [if_neg hdup]
        exact h
    · rw [if_pos (dedup_length_ne h), List.length_append]
      simp
  rw [if_pos he3]
  generalize hgen2 : (if ((pd.options.map (fun o => jsToLower (jsTrim o))).filter
      (fun o => o != "")).length ≠
      ((pd.options.map (fun o => jsToLower (jsTrim o))).filter
        (fun o => o != "")).dedup.length then
    E ++ [some "Options must be unique"]
  else E) = F at he3 ⊢
  cases F with
  | nil => exact absurd he3 (Nat.lt_irrefl 0)
  | cons x xs => rfl

/-- Any of the failing validation conditions makes `validateForm` report an
error. -/
lemma validateForm_fails (pd : PollFormData)
    (h : jsTrim pd.title = "" ∨ (jsTrim pd.title).length < 3 ∨
      (jsTrim pd.title).length > 200 ∨
      (pd.options.filter (fun o => jsTrim o != "")).length < 2 ∨
      (∃ o ∈ pd.options, jsTrim o ≠ "" ∧ (jsTrim o).length > 100) ∨
      ¬ ((pd.options.map (fun o => jsToLower (jsTrim o))).filter
          (fun o => o != "")).Nodup) :
    hasErrors (validateForm pd) = true := by
  rcases h with h | h | h | h | h | h
  · have ht : (validateForm pd).title.isSome = true := by
      simp only [validateForm]
      rw [if_pos h]
      rfl
    simp [hasErrors, ht]
  · have ht : (validateForm pd).title.isSome = true := by
      simp only [validateForm]
      by_cases h0 : jsTrim pd.title = ""
      · rw [if_pos h0]
        rfl
      · rw [if_neg h0, if_pos h]
        rfl
    simp [hasErrors, ht]
  · have ht : (validateForm pd).title.isSome = true := by
      simp only [validateForm]
      by_cases h0 : jsTrim pd.title = ""
      · rw [if_pos h0]
        rfl
      · by_cases h3 : (jsTrim pd.title).length < 3
        · rw [if_neg h0, if_pos h3]
          rfl
        · rw [if_neg h0, if_neg h3, if_pos h]
          rfl
    simp [hasErrors, ht]
  · have h2 : 0 < (optionLengthPass pd.options 0
        (if (pd.options.filter (fun o => jsTrim o != "")).length < 2 then
          [some "At least 2 options are required"] else [])).length := by
      rw [if_pos h]
      exact Nat.lt_of_lt_of_le (by simp) (optionLengthPass_length_ge pd.options 0 _)
    simp [hasErrors, validateForm_options_nonempty pd (Or.inl h2)]
  · have h2 : 0 < (optionLengthPass pd.options 0
        (if (pd.options.filter (fun o => jsTrim o != "")).length < 2 then
          [some "At least 2 options are required"] else [])).length :=
      optionLengthPass_pos pd.options 0 _ h
    simp [hasErrors, validateForm_options_nonempty pd (Or.inl h2)]
  · simp [hasErrors, validateForm_options_nonempty pd (Or.inr h)]

/-- Claim C9 (Validation before any remote call): for every form state
failing validation — empty title, title shorter than 3 or longer than 200
characters, fewer than two non-blank options, a non-blank option longer than
100 characters, or duplicate (trimmed, lowercased) option texts —
`handleSubmit` records the validation errors and returns with no remote call
issued, for every store. -/
theorem createPoll_validation_first (store : CreateStore) (u : String)
    (pd : PollFormData)
    (h : jsTrim pd.title = "" ∨ (jsTrim pd.title).length < 3 ∨
      (jsTrim pd.title).length > 200 ∨
      (pd.options.filter (fun o => jsTrim o != "")).length < 2 ∨
      (∃ o ∈ pd.options, jsTrim o ≠ "" ∧ (jsTrim o).length > 100) ∨
      ¬ ((pd.options.map (fun o => jsToLower (jsTrim o))).filter
          (fun o => o != "")).Nodup) :
    hasErrors (validateForm pd) = true ∧
    createHandleSubmit store (some u) pd = ([], CreateOutcome.validationError) := by
  have hval := validateForm_fails pd h
  exact ⟨hval, by simp [createHandleSubmit, hval]⟩

/-- Create store used by the validation witness. -/
def okCreateStore : CreateStore :=
  { insertPollOk := true
    insertOptionsOk := true }

/-- Claim C9 witness: an empty title with two valid options fails validation
and issues no remote call. -/
theorem createPoll_validation_first_witness :
    hasErrors (validateForm { title := "", description := "", options := ["A", "B"] }) =
      true ∧
    createHandleSubmit okCreateStore (some "u")
        { title := "", description := "", options := ["A", "B"] } =
      ([], CreateOutcome.validationError) :=
  createPoll_validation_first okCreateStore "u"
    { title := "", description := "", options := ["A", "B"] } (Or.inl (by decide))

end AlxPolly
